import Mathlib

/-!
Verification development for renderable.js, a dependency-tracking reactive
rendering engine.  The definitions below are a shallow embedding of
src/renderable.js:

* `RJS.DNode`, `RJS.replaceFn` and friends embed the DOM reconciliation
  algorithm `Renderable._internal.replace` (lines 451-534).  DOM nodes carry
  an explicit numeric identity so that "reference equality" of live DOM nodes
  is expressible; `cloneNode` allocates fresh identities from a counter.
* `RJS.Store`, `RJS.invalidateE`, `RJS.renderE`, `RJS.internalRender`,
  `RJS.lockE`, `RJS.unlockE`, `RJS.trackedSet` embed the reactive node graph
  and its operations (`Renderable.invalidate/render/lock/unlock`, the
  default render function `Renderable._internal.render`, and the property
  setters installed by `Renderable.addFields`).  JavaScript exceptions are
  modelled by `Except String`; the unbounded mutual recursion between
  `invalidate` and `render` is modelled with an explicit fuel parameter
  (fuel exhaustion returns the state unchanged, a modelling artifact only).
  User-supplied render functions are modelled as pure functions
  `RenderFn : Nat -> values -> String` of the node id and its tracked
  fields; the document is modelled at the granularity the render path
  observes it: a map from anchor element to its innerHTML string (the
  node-level patching itself is verified separately on `replaceFn`).
* `RJS.routeEvent` embeds the per-event-type listener closure installed by
  `Renderable.listenForEvents` (lines 730-770), including the ancestor walk
  over data-renderable-id lists, weak-registry dereference, the dead
  `called` accumulator, and the fallback-node parent-chain walk.
-/

namespace RJS

/-- Association-list lookup (JavaScript property access on the modelled
objects). -/
def alookup {α β : Type} [DecidableEq α] : List (α × β) → α → Option β
  | [], _ => none
  | kv :: rest, k => if kv.1 = k then some kv.2 else alookup rest k

/-! ## DOM model and the reconciliation engine (`Renderable._internal.replace`) -/

/-- A DOM node: an element with tag, attributes, live boolean properties
(`checked`/`selected` state mirrored by `specialAttrs`) and children, or a
text node.  The `id` field models JavaScript object identity. -/
inductive DNode where
  | elem (id : Nat) (tag : String) (attrs : List (String × String))
      (props : List (String × Bool)) (children : List DNode)
  | text (id : Nat) (value : String)
deriving Repr

/-- `Node.nodeType`: 1 for elements, 3 for text nodes. -/
def DNode.nodeType : DNode → Nat
  | .elem .. => 1
  | .text .. => 3

/-- `Node.nodeValue`: null for elements, the text for text nodes. -/
def DNode.nodeValue : DNode → Option String
  | .elem .. => none
  | .text _ v => some v

/-- `Node.childNodes` (text nodes have none). -/
def DNode.childrenOf : DNode → List DNode
  | .elem _ _ _ _ cs => cs
  | .text _ _ => []

/-- `Node.cloneNode(true)`: a deep copy.  The copy is a distinct object, so
it receives fresh identities from the counter; attributes are copied, live
property state (e.g. `checked`) is not. -/
def cloneNode (fresh : Nat) : DNode → DNode × Nat
  | .text _ v => (.text fresh v, fresh + 1)
  | .elem _ t a _ cs =>
    let r := cloneList (fresh + 1) cs
    (.elem fresh t a [] r.1, r.2)
where
  /-- Clone a list of siblings in order. -/
  cloneList (fresh : Nat) : List DNode → List DNode × Nat
    | [] => ([], fresh)
    | c :: cs =>
      let r := cloneNode fresh c
      let r2 := cloneList r.2 cs
      (r.1 :: r2.1, r2.2)

/-- Escape one character of text content. -/
def escapeChar (c : Char) : String :=
  if c = '&' then "&amp;"
  else if c = '<' then "&lt;"
  else if c = '>' then "&gt;"
  else String.singleton c

/-- Escape text content for serialization. -/
def escapeText (s : String) : String :=
  (s.data.map escapeChar).foldl (fun a b => a ++ b) ""

/-- Serialized form of an attribute list. -/
def attrsString : List (String × String) → String
  | [] => ""
  | (n, v) :: rest => " " ++ n ++ "=\x22" ++ v ++ "\x22" ++ attrsString rest

mutual
/-- `Element.outerHTML` / text serialization (identities are not observable
in markup). -/
def serializeNode : DNode → String
  | .text _ v => escapeText v
  | .elem _ t attrs _ cs =>
    "<" ++ t ++ attrsString attrs ++ ">" ++ serializeList cs ++ "</" ++ t ++ ">"

/-- Serialization of a sibling list; `innerHTML` of a parent is the
serialization of its children. -/
def serializeList : List DNode → String
  | [] => ""
  | c :: cs => serializeNode c ++ serializeList cs
end

/-- Set a live boolean property (`e[name] = b`). -/
def setProp (props : List (String × Bool)) (name : String) (b : Bool) :
    List (String × Bool) :=
  if (alookup props name).isSome then
    props.map (fun kv => if kv.1 = name then (name, b) else kv)
  else props ++ [(name, b)]

/-- `specialAttrs` handler `boolAttr(name)`: reads the current attribute and
mirrors it into the live property (null/"false" ↦ false; ""/"true"/name ↦
true; anything else untouched). -/
def boolAttrApply (name : String) (attrs : List (String × String))
    (props : List (String × Bool)) : List (String × Bool) :=
  match alookup attrs name with
  | none => setProp props name false
  | some v =>
    if v = "false" then setProp props name false
    else if v = "" || v = "true" || v = name then setProp props name true
    else props

/-- The attribute names with a `specialAttrs` handler. -/
def specialNames : List String := ["checked", "selected"]

/-- Run the `specialAttrs` handler for `name`, if any. -/
def applySpecial (name : String) (attrs : List (String × String))
    (props : List (String × Bool)) : List (String × Bool) :=
  if name ∈ specialNames then boolAttrApply name attrs props else props

/-- First phase of attribute sync: remove every live attribute absent from
the update, running the special handler (which now reads null) after each
removal.  Attribute names are unique within an element, so the handler for a
removed name always sees the attribute as absent. -/
def removeAbsentAttrs (updNames : List String)
    (attrs : List (String × String)) (props : List (String × Bool)) :
    List (String × String) × List (String × Bool) :=
  (attrs.filter (fun kv => kv.1 ∈ updNames),
   (attrs.filter (fun kv => kv.1 ∉ updNames)).foldl
     (fun ps kv =>
       if kv.1 ∈ specialNames then setProp ps kv.1 false else ps)
     props)

/-- Second phase of attribute sync: for each update attribute in order, add
it if absent, overwrite it if its value differs, and then run the special
handler on the current state. -/
def addUpdateAttrs (updAttrs : List (String × String))
    (attrs : List (String × String)) (props : List (String × Bool)) :
    List (String × String) × List (String × Bool) :=
  updAttrs.foldl
    (fun acc nv =>
      let attrs' :=
        match alookup acc.1 nv.1 with
        | none => acc.1 ++ [nv]
        | some old =>
          if old ≠ nv.2 then
            acc.1.map (fun kv => if kv.1 = nv.1 then nv else kv)
          else acc.1
      (attrs', applySpecial nv.1 attrs' acc.2))
    (attrs, props)

/-- The trailing `while(cu)` loop: every unmatched update child is appended
to the live fragment, cloned when the clone flag is set. -/
def appendTrailing (clone : Bool) (cus : List DNode) (fresh : Nat) :
    List DNode × Nat :=
  if clone then cloneNode.cloneList fresh cus else (cus, fresh)

mutual
/-- The pairwise walk of `Renderable._internal.replace` over the update's
and the live fragment's child lists.  Unmatched trailing live children are
dropped; unmatched trailing update children are appended via
`appendTrailing`. -/
def replaceChildren (clone : Bool) :
    List DNode → List DNode → Nat → List DNode × Nat
  | [], _, fresh => ([], fresh)
  | cu :: cus, ca :: cas, fresh =>
    let r1 := reconcilePair clone cu ca fresh
    let r2 := replaceChildren clone cus cas r1.2
    (r1.1 :: r2.1, r2.2)
  | cus, [], fresh => appendTrailing clone cus fresh

/-- One iteration of the `while(cu && ca)` loop: reconcile the live child
`ca` against the update child `cu`, returning its replacement in the live
fragment.  Mirrors lines 461-515 of src/renderable.js. -/
def reconcilePair (clone : Bool) (cu ca : DNode) (fresh : Nat) :
    DNode × Nat :=
  if ca.nodeType ≠ cu.nodeType || ca.nodeValue ≠ cu.nodeValue then
    -- anchor.replaceChild(clone ? cu.cloneNode(true) : cu, ca)
    if clone then cloneNode fresh cu else (cu, fresh)
  else
    match cu, ca with
    | .elem _ tu au _ csu, .elem ia ta aa pa csa =>
      -- Workaround for changing an element's tag name: a fresh bare element
      -- of the update's tag takes over the live element's children.
      let idd := if ta ≠ tu then fresh else ia
      let fresh1 := if ta ≠ tu then fresh + 1 else fresh
      let aa1 := if ta ≠ tu then [] else aa
      let pa1 := if ta ≠ tu then [] else pa
      let rem := removeAbsentAttrs (au.map Prod.fst) aa1 pa1
      let add := addUpdateAttrs au rem.1 rem.2
      if serializeList csa ≠ serializeList csu then
        let rc := replaceChildren clone csu csa fresh1
        (.elem idd tu add.1 add.2 rc.1, rc.2)
      else
        (.elem idd tu add.1 add.2 csa, fresh1)
    | .text _ vu, .text ia va =>
      -- TEXT_NODE branch of the source; only reachable with equal values
      -- (differing values are caught by the wholesale replaceChild above).
      if va ≠ vu then (.text ia vu, fresh) else (.text ia va, fresh)
    | _, _ => (ca, fresh)
end

/-- `Renderable._internal.replace(update, anchor, clone)`: patch the live
node `anchor` so its children match `update`'s, preserving untouched nodes.
Returns the patched anchor and the fresh-identity counter. -/
def replaceFn (update anchor : DNode) (clone : Bool) (fresh : Nat) :
    DNode × Nat :=
  match anchor with
  | .elem ia ta aa pa cas =>
    let r := replaceChildren clone update.childrenOf cas fresh
    (.elem ia ta aa pa r.1, r.2)
  | .text i v => (.text i v, fresh)

/-! ## The reactive node graph (`obj._renderable` state and the operations
`invalidate`, `render`, `lock`, `unlock`, the internal render function and
the tracked-field setters) -/

/-- The `_renderable` record installed by `Renderable.enable` (lines
153-167).  `values` is the backing plain fields object of `addFields`;
`anchor` is the list of anchor elements (the named-anchor string form is
resolved through the document and is not modelled); `cache`/`cache_final`
start as null.  Interactive id annotation is not modelled (nodes here are
plain, `cache_final` mirrors `cache` on change as in the no-DOM branch of
the source). -/
structure RState where
  values : List (String × String)
  locked : Nat
  dirty : Bool
  anchor : List Nat
  children : List Nat
  parents : List Nat
  cache : Option String
  cache_final : Option String
  rendering : Bool
  constructing : Bool
  has_anchor : Bool
deriving Repr, DecidableEq

/-- Global state: the renderable objects (keyed by object identity), the
document (anchor element ↦ its innerHTML, the granularity at which the
render path reads and writes it), and `Renderable._internal.renderstack`. -/
structure Store where
  nodes : List (Nat × RState)
  doc : List (Nat × String)
  renderstack : List Nat
deriving Repr, DecidableEq

/-- Object lookup; `none` models a value without a `_renderable` property. -/
def Store.get? (s : Store) (id : Nat) : Option RState :=
  alookup s.nodes id

/-- In-place mutation of one renderable's `_renderable` record. -/
def Store.upd (s : Store) (id : Nat) (f : RState → RState) : Store :=
  { s with nodes := s.nodes.map (fun kv => if kv.1 = id then (id, f kv.2) else kv) }

/-- `a.innerHTML` for an anchor element. -/
def Store.docGet (s : Store) (a : Nat) : String :=
  (alookup s.doc a).getD ""

/-- Overwrite an anchor element's contents (the net effect on the document
model of `Renderable._internal.replace(parsed, a, copy)`). -/
def Store.docSet (s : Store) (a : Nat) (h : String) : Store :=
  if (alookup s.doc a).isSome then
    { s with doc := s.doc.map (fun kv => if kv.1 = a then (a, h) else kv) }
  else { s with doc := s.doc ++ [(a, h)] }

/-- A user-supplied render function, modelled as a pure function of the
node's identity and its tracked field values. -/
abbrev RenderFn := Nat → List (String × String) → String

/-- `Renderable.assertRenderable` (lines 57-61). -/
def assertR (s : Store) (id : Nat) : Except String RState :=
  match s.get? id with
  | some r => .ok r
  | none => .error "Non-renderable object passed."

/-- Dependency registration against the render stack (lines 546-560): the
stack top becomes a parent of `id`, `id` becomes a child of the stack top,
and `has_anchor` is propagated in both directions. -/
def registerOnStack (id : Nat) (s : Store) : Store :=
  match s.renderstack.getLast? with
  | none => s
  | some last =>
    let sA := s.upd id (fun x =>
      { x with
        parents := if last ∈ x.parents then x.parents else x.parents ++ [last]
        has_anchor :=
          x.has_anchor ||
            (match s.get? last with
             | some y => y.has_anchor
             | none => false) })
    sA.upd last (fun x =>
      { x with
        children := if id ∈ x.children then x.children else x.children ++ [id]
        has_anchor :=
          x.has_anchor ||
            (match sA.get? id with
             | some y => y.has_anchor
             | none => false) })

/-- Lines 564-566: remove `id` as parent from all of the previous
rendering's children. -/
def detachChildren (id : Nat) (cs : List Nat) (s : Store) : Store :=
  cs.foldl
    (fun (t : Store) c => t.upd c (fun x =>
      { x with parents := x.parents.filter (· ≠ id) })) s

/-- Lines 344-346: write the new html into every anchor whose contents
differ. -/
def patchAnchors (anchors : List Nat) (html : String) (s : Store) : Store :=
  anchors.foldl
    (fun (t : Store) a => if t.docGet a ≠ html then t.docSet a html else t) s

/-- The dirty branch of the default render function (lines 561-597), given
the node's (re-fetched) record `r` in the post-registration store `s1`: set
the re-entrancy flag, detach and clear the previous children, run the
user render function inside `Renderable.with` (renderstack push/pop),
compare against the cache, store the new output and clear `dirty` and
`rendering`. -/
def renderDirtyStep (rf : RenderFn) (id : Nat) (r : RState) (s1 : Store) :
    String × Option Bool × Store :=
  let s2 := s1.upd id (fun x => { x with rendering := true })
  -- remove this node as parent from all previous rendering's children
  let s3 := detachChildren id r.children s2
  let s4 := s3.upd id (fun x => { x with children := [] })
  -- Renderable.with(this, () => rthis.render.call(this, settings))
  let s5 := { s4 with renderstack := s4.renderstack ++ [id] }
  let new_html := rf id r.values
  let s6 := { s5 with renderstack := s5.renderstack.dropLast }
  let changed := r.cache ≠ some new_html
  let s7 := s6.upd id (fun x =>
    { x with
      cache := some new_html
      cache_final := if changed then some new_html else x.cache_final
      dirty := false
      rendering := false })
  (if changed then new_html else r.cache_final.getD "", some changed, s7)

/-- The default render function `Renderable._internal.render` (lines
537-599): re-entrancy guard, render-stack dependency registration,
re-render on dirty with cache comparison.  Returns the rendered html, the
`out.changed` report (`none` when the dirty branch was skipped and
`obj.changed` stays undefined) and the new state. -/
def internalRender (rf : RenderFn) (id : Nat) (s : Store) :
    Except String (String × Option Bool × Store) :=
  match s.get? id with
  | none => .error "Non-renderable object passed."
  | some r0 =>
    if r0.rendering then .error "Fractal rendering occurred!"
    else
      -- register the currently rendering node (renderstack top) as parent,
      -- this node as its child, and propagate has_anchor both ways
      let s1 := registerOnStack id s
      match s1.get? id with
      | none => .error "Non-renderable object passed."
      | some r =>
        if r.dirty then .ok (renderDirtyStep rf id r s1)
        else .ok (r.cache_final.getD "", none, s1)

mutual
/-- `Renderable.render` (lines 312-361): bail out when locked or clean,
snapshot and clear parents, run the internal render, restore the snapshot
and report false on "no visible change", otherwise patch every anchor whose
contents differ and re-invalidate the snapshot parents. -/
def renderE (rf : RenderFn) : Nat → Nat → Store → Except String (Bool × Store)
  | 0, _, s => .ok (false, s)
  | fuel + 1, id, s =>
    match s.get? id with
    | none => .error "Non-renderable object passed."
    | some r =>
      if r.locked ≠ 0 || r.dirty = false then .ok (false, s)
      else
        let prev := r.parents
        let s1 := if r.constructing then s
          else s.upd id (fun x => { x with parents := [] })
        match internalRender rf id s1 with
        | .error e => .error e
        | .ok (html, changedOpt, s2) =>
          if changedOpt ≠ some true then
            .ok (false, s2.upd id (fun x => { x with parents := prev }))
          else
            let s3 := patchAnchors r.anchor html s2
            if r.constructing then .ok (true, s3)
            else
              match invalidateAll rf fuel prev s3 with
              | .error e => .error e
              | .ok s4 => .ok (true, s4)

/-- `Renderable.invalidate` (lines 407-427): no-op while constructing, mark
dirty, defer while locked; when the node transitively has an anchor,
recompute the flag and render; otherwise bubble the invalidation up to every
current parent without rendering. -/
def invalidateE (rf : RenderFn) : Nat → Nat → Store → Except String Store
  | 0, _, s => .ok s
  | fuel + 1, id, s =>
    match s.get? id with
    | none => .error "Non-renderable object passed."
    | some r =>
      if r.constructing then .ok s
      else
        let s1 := s.upd id (fun x => { x with dirty := true })
        if r.locked ≠ 0 then .ok s1
        else if r.has_anchor then
          let s2 := s1.upd id (fun x =>
            { x with
              has_anchor := x.anchor ≠ [] ||
                x.parents.any (fun p =>
                  match s1.get? p with
                  | some y => y.has_anchor
                  | none => false) })
          match renderE rf fuel id s2 with
          | .error e => .error e
          | .ok (_, s3) => .ok s3
        else invalidateAll rf fuel r.parents s1

/-- `renderable._renderable.parents.forEach(Renderable.invalidate)`: the
headless bubble-up over the (snapshotted) parents array.  (The fuel is
threaded through the walk as well; exhaustion stops it, a modelling
artifact.) -/
def invalidateAll (rf : RenderFn) : Nat → List Nat → Store → Except String Store
  | _, [], s => .ok s
  | 0, _ :: _, s => .ok s
  | fuel + 1, p :: ps, s =>
    match invalidateE rf fuel p s with
    | .error e => .error e
    | .ok s' => invalidateAll rf fuel ps s'
end

/-- `Renderable.lock` (lines 378-386). -/
def lockE (id : Nat) (s : Store) : Except String Store :=
  match s.get? id with
  | none => .error "Non-renderable object passed."
  | some r =>
    if r.locked ≠ 0 then .error "Tried to lock locked renderable."
    else .ok (s.upd id (fun x => { x with locked := x.locked + 1 }))

/-- `Renderable.unlock` (lines 392-401): remove one lock if any; when the
last lock is removed from a dirty, fully constructed node, render it. -/
def unlockE (rf : RenderFn) (fuel : Nat) (id : Nat) (s : Store) :
    Except String Store :=
  match s.get? id with
  | none => .error "Non-renderable object passed."
  | some r =>
    if r.locked ≠ 0 then
      let s1 := s.upd id (fun x => { x with locked := x.locked - 1 })
      if r.locked - 1 = 0 && !r.constructing && r.dirty then
        match renderE rf fuel id s1 with
        | .error e => .error e
        | .ok (_, s2) => .ok s2
      else .ok s1
    else .ok s

/-- Write to an association list (`fields[name] = value`). -/
def setAList (l : List (String × String)) (name v : String) :
    List (String × String) :=
  if (alookup l name).isSome then
    l.map (fun kv => if kv.1 = name then (name, v) else kv)
  else l ++ [(name, v)]

/-- The setter `Renderable.addFields` installs for a tracked field of a
plain (non-renderable) fields object (lines 90-97): store and invalidate
only when the assigned value is not strictly equal to the current one. -/
def trackedSet (rf : RenderFn) (fuel : Nat) (id : Nat) (name value : String)
    (s : Store) : Except String Store :=
  if ((s.get? id).bind (fun r => alookup r.values name)) ≠ some value then
    invalidateE rf fuel id
      (s.upd id (fun x => { x with values := setAList x.values name value }))
  else .ok s

/-! ## The event router (`Renderable.listenForEvents`, lines 730-770) -/

/-- A JavaScript value as far as handler return values are concerned. -/
inductive JSVal where
  | undef
  | nullV
  | boolV (b : Bool)
  | strV (s : String)
  | numV (n : Int)
deriving Repr, DecidableEq

/-- JavaScript truthiness of a handler's return value. -/
def JSVal.truthy : JSVal → Bool
  | .undef => false
  | .nullV => false
  | .boolV b => b
  | .strV s => s ≠ ""
  | .numV n => n ≠ 0

/-- The synthetic event object passed to a user handler.  The ancestor-walk
call passes `data: {key, data}` and a `root` element; the fallback-chain call
passes `data: {key}` and no `root`. -/
structure EvArg where
  type : String
  key : Option String
  dataField : Option String
  target : Nat
  scope : Option Nat
  bubbled : Bool
  root : Option Nat
deriving Repr, DecidableEq

/-- A user event handler, modelled as a pure function of the synthetic
event (only its return value steers the router). -/
abbrev Handler := EvArg → JSVal

/-- The environment the listener closure reads: the weak registry
`Renderable._internal.uniqueRenderables` (deref may fail), each node's
`_renderable.events` table, each node's `_renderable.parents` (for the
fallback chain), and the per-event-type fallback node. -/
structure Router where
  deref : Nat → Option Nat
  handlers : Nat → String → Option Handler
  parentsOf : Nat → List Nat
  fallback : Option Nat

/-- A raw DOM event: its type, key/data payload, original target, and the
ancestor element chain starting at the target (each entry is the element's
identity and its `dataset.renderableId` list). -/
structure RawEvent where
  type : String
  key : Option String
  dataVal : Option String
  target : Nat
  chain : List (Nat × List Nat)

/-- Outcome of routing one raw event: the handler invocations that fired (in
order, with the synthetic event each received) and whether
`e.preventDefault()` was called. -/
structure RouteOut where
  trace : List (Nat × EvArg)
  prevented : Bool
deriving Repr, DecidableEq

/-- Intermediate result of the ancestor walk: either halted by a falsy
handler return, or completed with the accumulated `renderable` (scope) and
the dead `called` flag. -/
inductive WalkOut where
  | halted (trace : List (Nat × EvArg))
  | done (trace : List (Nat × EvArg)) (renderable : Option Nat) (called : Bool)
deriving Repr, DecidableEq

/-- The nested `for(target...) for(id...)` ancestor walk, flattened to the
sequence of (element, registry id) pairs it visits.  `renderable` is the
running `renderable ?? r` accumulator (the scope: first resolved node);
`called` accumulates whether any handler existed but is never consulted
afterwards, exactly as in the source. -/
def walkPairs (rt : Router) (ev : RawEvent) :
    List (Nat × Nat) → Option Nat → Bool → List (Nat × EvArg) → WalkOut
  | [], renderable, called, trace => .done trace renderable called
  | (el, i) :: rest, renderable, called, trace =>
    let r := rt.deref i
    let renderable := match renderable with
      | some x => some x
      | none => r
    match r with
    | none => walkPairs rt ev rest renderable called trace
    | some rid =>
      match rt.handlers rid ev.type with
      | none => walkPairs rt ev rest renderable called trace
      | some h =>
        let arg : EvArg :=
          { type := ev.type, key := ev.key, dataField := ev.dataVal
            target := ev.target, scope := renderable
            bubbled := some rid ≠ renderable, root := some el }
        if (h arg).truthy then
          walkPairs rt ev rest renderable true (trace ++ [(rid, arg)])
        else .halted (trace ++ [(rid, arg)])

/-- The `for(let r = listeners[name]?.fallback; r; r = r._renderable.parents.at(-1))`
loop: walk the fallback node's most-recently-registered parent chain.  The
chain may cycle in the heap, hence the fuel. -/
def fallbackWalk (rt : Router) (ev : RawEvent) :
    Nat → Option Nat → Option Nat → List (Nat × EvArg) → RouteOut
  | _, none, _, trace => { trace := trace, prevented := false }
  | 0, some _, _, trace => { trace := trace, prevented := false }
  | fuel + 1, some rid, renderable, trace =>
    let renderable := match renderable with
      | some x => some x
      | none => some rid
    match rt.handlers rid ev.type with
    | none => fallbackWalk rt ev fuel (rt.parentsOf rid).getLast? renderable trace
    | some h =>
      let arg : EvArg :=
        { type := ev.type, key := ev.key, dataField := none
          target := ev.target, scope := renderable
          bubbled := true, root := none }
      if (h arg).truthy then
        fallbackWalk rt ev fuel (rt.parentsOf rid).getLast? renderable
          (trace ++ [(rid, arg)])
      else { trace := trace ++ [(rid, arg)], prevented := true }

/-- The flattening of the nested ancestor loops. -/
def flattenChain (chain : List (Nat × List Nat)) : List (Nat × Nat) :=
  chain.flatMap (fun ei => ei.2.map (fun i => (ei.1, i)))

/-- The listener closure installed by `Renderable.listenForEvents` for one
event type: the ancestor walk, then — unconditionally, since the `called`
flag is never read — the fallback-chain walk. -/
def routeEvent (rt : Router) (ev : RawEvent) (fuel : Nat) : RouteOut :=
  match walkPairs rt ev (flattenChain ev.chain) none false [] with
  | .halted trace => { trace := trace, prevented := true }
  | .done trace renderable _called =>
    fallbackWalk rt ev fuel rt.fallback renderable trace

/-! ## Store lemmas -/

theorem alookup_map_upd {α β : Type} [DecidableEq α] (l : List (α × β))
    (id : α) (f : β → β) (m : α) :
    alookup (l.map (fun kv => if kv.1 = id then (id, f kv.2) else kv)) m =
      if m = id then (alookup l id).map f else alookup l m := by
  induction l with
  | nil => simp [alookup]
  | cons kv t ih =>
    obtain ⟨k, v⟩ := kv
    by_cases hk : k = id
    · subst hk
      by_cases hm : m = k
      · subst hm
        simp [alookup]
      · simp [alookup, hm, Ne.symm hm, ih]
    · by_cases hmi : m = id
      · subst hmi
        simp [alookup, hk, ih]
      · by_cases hm : k = m
        · subst hm
          simp [alookup, hmi]
        · simp [alookup, hk, hm, hmi, ih]

theorem Store.get?_upd (s : Store) (id : Nat) (f : RState → RState) (m : Nat) :
    (s.upd id f).get? m = if m = id then (s.get? id).map f else s.get? m :=
  alookup_map_upd s.nodes id f m

theorem Store.doc_upd (s : Store) (id : Nat) (f : RState → RState) :
    (s.upd id f).doc = s.doc := rfl

theorem Store.renderstack_upd (s : Store) (id : Nat) (f : RState → RState) :
    (s.upd id f).renderstack = s.renderstack := rfl

theorem Store.get?_docSet (s : Store) (a : Nat) (h : String) (m : Nat) :
    (s.docSet a h).get? m = s.get? m := by
  unfold Store.docSet
  split <;> rfl

theorem Store.renderstack_docSet (s : Store) (a : Nat) (h : String) :
    (s.docSet a h).renderstack = s.renderstack := by
  unfold Store.docSet
  split <;> rfl

theorem patchAnchors_nil (html : String) (s : Store) :
    patchAnchors [] html s = s := rfl

theorem patchAnchors_cons (a : Nat) (rest : List Nat) (html : String)
    (s : Store) :
    patchAnchors (a :: rest) html s =
      patchAnchors rest html
        (if s.docGet a ≠ html then s.docSet a html else s) := by
  unfold patchAnchors
  simp only [List.foldl_cons]

theorem patchAnchors_get? (anchors : List Nat) (html : String) (s : Store)
    (m : Nat) : (patchAnchors anchors html s).get? m = s.get? m := by
  induction anchors generalizing s with
  | nil => rfl
  | cons a rest ih =>
    rw [patchAnchors_cons]
    split
    · rw [ih, Store.get?_docSet]
    · rw [ih]

theorem patchAnchors_renderstack (anchors : List Nat) (html : String)
    (s : Store) : (patchAnchors anchors html s).renderstack = s.renderstack := by
  induction anchors generalizing s with
  | nil => rfl
  | cons a rest ih =>
    rw [patchAnchors_cons]
    split
    · rw [ih, Store.renderstack_docSet]
    · rw [ih]

theorem detachChildren_nil (id : Nat) (s : Store) :
    detachChildren id [] s = s := rfl

theorem detachChildren_cons (id : Nat) (c : Nat) (rest : List Nat) (s : Store) :
    detachChildren id (c :: rest) s =
      detachChildren id rest
        (s.upd c (fun x => { x with parents := x.parents.filter (· ≠ id) })) := by
  unfold detachChildren
  simp only [List.foldl_cons]

theorem detachChildren_get? (id : Nat) (cs : List Nat) (s : Store) (m : Nat) :
    (detachChildren id cs s).get? m =
      if m ∈ cs then
        (s.get? m).map (fun x => { x with parents := x.parents.filter (· ≠ id) })
      else s.get? m := by
  induction cs generalizing s with
  | nil =>
    rw [detachChildren_nil]
    simp
  | cons c rest ih =>
    rw [detachChildren_cons, ih]
    by_cases hm : m ∈ rest
    · simp only [hm, if_true, Store.get?_upd, List.mem_cons, or_true, if_true]
      by_cases hc : m = c
      · subst hc
        simp only [if_pos rfl]
        cases s.get? m with
        | none => rfl
        | some r =>
          simp [List.filter_filter]
      · rw [if_neg hc]
    · simp only [hm, if_false, Store.get?_upd, List.mem_cons, or_false]
      by_cases hc : m = c
      · subst hc
        simp
      · simp [hc]

theorem detachChildren_doc (id : Nat) (cs : List Nat) (s : Store) :
    (detachChildren id cs s).doc = s.doc := by
  induction cs generalizing s with
  | nil => rfl
  | cons c rest ih =>
    rw [detachChildren_cons, ih, Store.doc_upd]

theorem detachChildren_renderstack (id : Nat) (cs : List Nat) (s : Store) :
    (detachChildren id cs s).renderstack = s.renderstack := by
  induction cs generalizing s with
  | nil => rfl
  | cons c rest ih =>
    rw [detachChildren_cons, ih, Store.renderstack_upd]

/-! ## Preservation: what the invalidate/render cascade can never change.

`NodeAgree`/`Agree` relate a store to any store reachable from it by the
cascade: lock counts, `constructing`, tracked values, anchors and the
(boundary) `rendering` flag are untouched, and a node's cache is either
untouched or rewritten to the rendered output of its (unchanged) values. -/

def NodeAgree (rf : RenderFn) (m : Nat) : Option RState → Option RState → Prop
  | none, none => True
  | some r, some r' =>
      r'.locked = r.locked ∧ r'.constructing = r.constructing ∧
      r'.values = r.values ∧ r'.anchor = r.anchor ∧
      r'.rendering = r.rendering ∧
      (r'.cache = r.cache ∨ r'.cache = some (rf m r.values)) ∧
      (r'.cache_final = r.cache_final ∨ r'.cache_final = some (rf m r.values))
  | _, _ => False

def Agree (rf : RenderFn) (s s' : Store) : Prop :=
  s'.renderstack = s.renderstack ∧ ∀ m, NodeAgree rf m (s.get? m) (s'.get? m)

theorem nodeAgreeRefl (rf : RenderFn) (m : Nat) (o : Option RState) :
    NodeAgree rf m o o := by
  cases o with
  | none => trivial
  | some r => exact ⟨rfl, rfl, rfl, rfl, rfl, Or.inl rfl, Or.inl rfl⟩

theorem nodeAgreeTrans {rf : RenderFn} {m : Nat} {o1 o2 o3 : Option RState}
    (h12 : NodeAgree rf m o1 o2) (h23 : NodeAgree rf m o2 o3) :
    NodeAgree rf m o1 o3 := by
  cases o1 with
  | none =>
    cases o2 with
    | none => cases o3 with
      | none => trivial
      | some r3 => exact absurd h23 (by simp [NodeAgree])
    | some r2 => exact absurd h12 (by simp [NodeAgree])
  | some r1 =>
    cases o2 with
    | none => exact absurd h12 (by simp [NodeAgree])
    | some r2 =>
      cases o3 with
      | none => exact absurd h23 (by simp [NodeAgree])
      | some r3 =>
        obtain ⟨l12, c12, v12, a12, rd12, ch12, cf12⟩ := h12
        obtain ⟨l23, c23, v23, a23, rd23, ch23, cf23⟩ := h23
        refine ⟨l23.trans l12, c23.trans c12, v23.trans v12, a23.trans a12,
          rd23.trans rd12, ?_, ?_⟩
        · rcases ch23 with h | h
          · rw [h]
            exact ch12
          · rw [h, v12]
            exact Or.inr rfl
        · rcases cf23 with h | h
          · rw [h]
            exact cf12
          · rw [h, v12]
            exact Or.inr rfl

theorem Agree.refl (rf : RenderFn) (s : Store) : Agree rf s s :=
  ⟨rfl, fun m => nodeAgreeRefl rf m (s.get? m)⟩

theorem Agree.trans {rf : RenderFn} {s1 s2 s3 : Store}
    (h12 : Agree rf s1 s2) (h23 : Agree rf s2 s3) : Agree rf s1 s3 :=
  ⟨h23.1.trans h12.1,
   fun m => nodeAgreeTrans (h12.2 m) (h23.2 m)⟩

theorem Agree.of_eqs {rf : RenderFn} {s s' : Store}
    (hrs : s'.renderstack = s.renderstack)
    (hg : ∀ m, s'.get? m = s.get? m) : Agree rf s s' :=
  ⟨hrs, fun m => (hg m) ▸ nodeAgreeRefl rf m (s.get? m)⟩

/-- An update function that only touches `dirty`, `has_anchor`, `parents`
or `children`. -/
def BenignF (f : RState → RState) : Prop :=
  ∀ x, (f x).locked = x.locked ∧ (f x).constructing = x.constructing ∧
    (f x).values = x.values ∧ (f x).anchor = x.anchor ∧
    (f x).rendering = x.rendering ∧ (f x).cache = x.cache ∧
    (f x).cache_final = x.cache_final

/-- A store update that only touches `dirty`, `has_anchor`, `parents` or
`children` preserves `Agree`. -/
theorem Agree.upd_benign (rf : RenderFn) (s : Store) (id : Nat)
    (f : RState → RState) (hf : BenignF f) :
    Agree rf s (s.upd id f) := by
  refine ⟨rfl, fun m => ?_⟩
  rw [Store.get?_upd]
  by_cases hm : m = id
  · rw [if_pos hm]
    subst hm
    cases hG : s.get? m with
    | none => trivial
    | some r =>
      obtain ⟨h1, h2, h3, h4, h5, h6, h7⟩ := hf r
      exact ⟨h1, h2, h3, h4, h5, Or.inl h6, Or.inl h7⟩
  · rw [if_neg hm]
    exact nodeAgreeRefl rf m (s.get? m)

theorem Agree.upd_upd_benign (rf : RenderFn) (s : Store) (id1 id2 : Nat)
    (f1 f2 : RState → RState) (hf1 : BenignF f1) (hf2 : BenignF f2) :
    Agree rf s ((s.upd id1 f1).upd id2 f2) :=
  Agree.trans (Agree.upd_benign rf s id1 f1 hf1)
    (Agree.upd_benign rf (s.upd id1 f1) id2 f2 hf2)

theorem registerOnStack_agree (rf : RenderFn) (id : Nat) (s : Store) :
    Agree rf s (registerOnStack id s) := by
  unfold registerOnStack
  cases s.renderstack.getLast? with
  | none => exact Agree.refl rf s
  | some last =>
    dsimp only
    exact Agree.upd_upd_benign rf s id last _ _
      (fun x => ⟨rfl, rfl, rfl, rfl, rfl, rfl, rfl⟩)
      (fun x => ⟨rfl, rfl, rfl, rfl, rfl, rfl, rfl⟩)

theorem detachChildren_agree (rf : RenderFn) (id : Nat) (cs : List Nat)
    (s : Store) : Agree rf s (detachChildren id cs s) := by
  refine ⟨detachChildren_renderstack id cs s, fun m => ?_⟩
  rw [detachChildren_get?]
  by_cases hm : m ∈ cs
  · rw [if_pos hm]
    cases s.get? m with
    | none => trivial
    | some r => exact ⟨rfl, rfl, rfl, rfl, rfl, Or.inl rfl, Or.inl rfl⟩
  · rw [if_neg hm]
    exact nodeAgreeRefl rf m (s.get? m)

theorem patchAnchors_agree (rf : RenderFn) (anchors : List Nat) (html : String)
    (s : Store) : Agree rf s (patchAnchors anchors html s) :=
  Agree.of_eqs (patchAnchors_renderstack anchors html s)
    (fun m => patchAnchors_get? anchors html s m)

theorem registerOnStack_empty (id : Nat) (s : Store)
    (h : s.renderstack = []) : registerOnStack id s = s := by
  unfold registerOnStack
  rw [h]
  rfl

/-- The store produced by the dirty render branch, with the balanced
renderstack push/pop cancelled. -/
theorem renderDirtyStep_store (rf : RenderFn) (id : Nat) (r : RState)
    (s1 : Store) :
    (renderDirtyStep rf id r s1).2.2 =
      ((detachChildren id r.children
          (s1.upd id (fun x => { x with rendering := true }))).upd id
        (fun x => { x with children := [] })).upd id (fun x =>
          { x with
            cache := some (rf id r.values)
            cache_final :=
              if r.cache ≠ some (rf id r.values) then some (rf id r.values)
              else x.cache_final
            dirty := false
            rendering := false }) := by
  unfold renderDirtyStep
  dsimp only
  rw [List.dropLast_concat]

theorem renderDirtyStep_changed (rf : RenderFn) (id : Nat) (r : RState)
    (s1 : Store) :
    (renderDirtyStep rf id r s1).2.1 =
      some (decide (r.cache ≠ some (rf id r.values))) := rfl

theorem renderDirtyStep_html (rf : RenderFn) (id : Nat) (r : RState)
    (s1 : Store) :
    (renderDirtyStep rf id r s1).1 =
      if r.cache ≠ some (rf id r.values) then rf id r.values
      else r.cache_final.getD "" := rfl

theorem renderDirtyStep_agree (rf : RenderFn) (id : Nat) (r : RState)
    (s1 : Store) (h1 : s1.get? id = some r) (hrend : r.rendering = false) :
    Agree rf s1 (renderDirtyStep rf id r s1).2.2 := by
  rw [renderDirtyStep_store]
  constructor
  · rw [Store.renderstack_upd, Store.renderstack_upd,
      detachChildren_renderstack, Store.renderstack_upd]
  · intro m
    by_cases hm : m = id
    · subst hm
      simp only [Store.get?_upd, detachChildren_get?, if_pos rfl, h1,
        Option.map_some']
      by_cases hc : m ∈ r.children
      · simp only [if_pos hc, Option.map_some']
        refine ⟨rfl, rfl, rfl, rfl, hrend.symm, Or.inr rfl, ?_⟩
        dsimp only
        by_cases hch : r.cache ≠ some (rf m r.values)
        · rw [if_pos hch]
          exact Or.inr rfl
        · rw [if_neg hch]
          exact Or.inl rfl
      · simp only [if_neg hc, Option.map_some']
        refine ⟨rfl, rfl, rfl, rfl, hrend.symm, Or.inr rfl, ?_⟩
        dsimp only
        by_cases hch : r.cache ≠ some (rf m r.values)
        · rw [if_pos hch]
          exact Or.inr rfl
        · rw [if_neg hch]
          exact Or.inl rfl
    · simp only [Store.get?_upd, detachChildren_get?, if_neg hm]
      by_cases hc : m ∈ r.children
      · simp only [if_pos hc]
        cases s1.get? m with
        | none => trivial
        | some rm => exact ⟨rfl, rfl, rfl, rfl, rfl, Or.inl rfl, Or.inl rfl⟩
      · simp only [if_neg hc]
        exact nodeAgreeRefl rf m (s1.get? m)

/-- Any successful run of the default render function preserves `Agree`. -/
theorem internalRender_agree (rf : RenderFn) (id : Nat) (s : Store)
    (out : String) (ch : Option Bool) (s' : Store)
    (heq : internalRender rf id s = .ok (out, ch, s')) : Agree rf s s' := by
  unfold internalRender at heq
  cases hG : s.get? id with
  | none =>
    rw [hG] at heq
    exact absurd heq (by simp)
  | some r0 =>
    rw [hG] at heq
    dsimp only at heq
    by_cases hrend : r0.rendering
    · rw [if_pos hrend] at heq
      exact absurd heq (by simp)
    · rw [if_neg hrend] at heq
      cases h1 : (registerOnStack id s).get? id with
      | none =>
        rw [h1] at heq
        exact absurd heq (by simp)
      | some r =>
        rw [h1] at heq
        dsimp only at heq
        have hreg := registerOnStack_agree rf id s
        have hrr : r.rendering = false := by
          have := hreg.2 id
          rw [hG, h1] at this
          rw [this.2.2.2.2.1]
          simpa using hrend
        by_cases hd : r.dirty
        · rw [if_pos hd] at heq
          have hs' : s' = (renderDirtyStep rf id r (registerOnStack id s)).2.2 := by
            cases heq
            rfl
          rw [hs']
          exact hreg.trans (renderDirtyStep_agree rf id r _ h1 hrr)
        · rw [if_neg hd] at heq
          have hs' : s' = registerOnStack id s := by
            cases heq
            rfl
          rw [hs']
          exact hreg

/-- With an empty render stack, a dirty, non-re-entrant node's internal
render runs exactly the dirty branch. -/
theorem internalRender_clean (rf : RenderFn) (id : Nat) (s : Store) (r : RState)
    (hG : s.get? id = some r) (hstack : s.renderstack = [])
    (hrend : r.rendering = false) (hd : r.dirty = true) :
    internalRender rf id s = .ok (renderDirtyStep rf id r s) := by
  unfold internalRender
  rw [hG]
  dsimp only
  rw [if_neg (by simp [hrend]), registerOnStack_empty id s hstack, hG]
  dsimp only
  rw [if_pos hd]

/-- The invalidate/render cascade, at any fuel, can only set dirty flags,
rebuild dependency edges, recompute anchor flags and rewrite caches with
freshly rendered output — everything in `Agree` is preserved. -/
theorem render_invalidate_agree (rf : RenderFn) : ∀ fuel : Nat,
    (∀ id s b s', renderE rf fuel id s = .ok (b, s') → Agree rf s s') ∧
    (∀ id s s', invalidateE rf fuel id s = .ok s' → Agree rf s s') ∧
    (∀ ps s s', invalidateAll rf fuel ps s = .ok s' → Agree rf s s') := by
  intro fuel
  induction fuel with
  | zero =>
    refine ⟨?_, ?_, ?_⟩
    · intro id s b s' h
      simp only [renderE] at h
      cases h
      exact Agree.refl rf s
    · intro id s s' h
      simp only [invalidateE] at h
      cases h
      exact Agree.refl rf s
    · intro ps s s' h
      cases ps with
      | nil =>
        simp only [invalidateAll] at h
        cases h
        exact Agree.refl rf s
      | cons p rest =>
        simp only [invalidateAll] at h
        cases h
        exact Agree.refl rf s
  | succ fuel ih =>
    have hAll : ∀ ps s s', invalidateAll rf (fuel + 1) ps s = .ok s' →
        Agree rf s s' := by
      intro ps
      induction ps with
      | nil =>
        intro s s' h
        simp only [invalidateAll] at h
        cases h
        exact Agree.refl rf s
      | cons p rest ihp =>
        intro s s' h
        simp only [invalidateAll] at h
        cases hstep : invalidateE rf fuel p s with
        | error e =>
          rw [hstep] at h
          exact absurd h (by simp)
        | ok s1 =>
          rw [hstep] at h
          dsimp only at h
          -- the tail is processed at the decremented fuel
          exact (ih.2.1 p s s1 hstep).trans (ih.2.2 rest s1 s' h)
    refine ⟨?_, ?_, hAll⟩
    · intro id s b s' h
      simp only [renderE] at h
      cases hG : s.get? id with
      | none =>
        rw [hG] at h
        exact absurd h (by simp)
      | some r =>
        rw [hG] at h
        dsimp only at h
        split at h
        · cases h
          exact Agree.refl rf s
        · have hs1 : Agree rf s
              (if r.constructing = true then s
               else s.upd id (fun x => { x with parents := [] })) := by
            split
            · exact Agree.refl rf s
            · exact Agree.upd_benign rf s id _
                (fun x => ⟨rfl, rfl, rfl, rfl, rfl, rfl, rfl⟩)
          cases hIR : internalRender rf id
              (if r.constructing = true then s
               else s.upd id (fun x => { x with parents := [] })) with
          | error e =>
            rw [hIR] at h
            exact absurd h (by simp)
          | ok trip =>
            obtain ⟨html, chOpt, s2⟩ := trip
            rw [hIR] at h
            dsimp only at h
            have hs2 : Agree rf s s2 :=
              hs1.trans (internalRender_agree rf id _ html chOpt s2 hIR)
            split at h
            · cases h
              exact hs2.trans (Agree.upd_benign rf s2 id _
                (fun x => ⟨rfl, rfl, rfl, rfl, rfl, rfl, rfl⟩))
            · have hs3 : Agree rf s (patchAnchors r.anchor html s2) :=
                hs2.trans (patchAnchors_agree rf r.anchor html s2)
              split at h
              · cases h
                exact hs3
              · cases hIA : invalidateAll rf fuel r.parents
                    (patchAnchors r.anchor html s2) with
                | error e =>
                  rw [hIA] at h
                  exact absurd h (by simp)
                | ok s4 =>
                  rw [hIA] at h
                  cases h
                  exact hs3.trans (ih.2.2 r.parents _ _ hIA)
    · intro id s s' h
      simp only [invalidateE] at h
      cases hG : s.get? id with
      | none =>
        rw [hG] at h
        exact absurd h (by simp)
      | some r =>
        rw [hG] at h
        dsimp only at h
        split at h
        · cases h
          exact Agree.refl rf s
        · have hs1 : Agree rf s (s.upd id (fun x => { x with dirty := true })) :=
            Agree.upd_benign rf s id _
              (fun x => ⟨rfl, rfl, rfl, rfl, rfl, rfl, rfl⟩)
          split at h
          · cases h
            exact hs1
          · split at h
            · have hs2 : Agree rf s
                  ((s.upd id (fun x => { x with dirty := true })).upd id
                    (fun x =>
                      { x with
                        has_anchor := x.anchor ≠ [] ||
                          x.parents.any (fun p =>
                            match (s.upd id (fun x =>
                                { x with dirty := true })).get? p with
                            | some y => y.has_anchor
                            | none => false) })) :=
                hs1.trans (Agree.upd_benign rf _ id _
                  (fun x => ⟨rfl, rfl, rfl, rfl, rfl, rfl, rfl⟩))
              cases hR : renderE rf fuel id
                  ((s.upd id (fun x => { x with dirty := true })).upd id
                    (fun x =>
                      { x with
                        has_anchor := x.anchor ≠ [] ||
                          x.parents.any (fun p =>
                            match (s.upd id (fun x =>
                                { x with dirty := true })).get? p with
                            | some y => y.has_anchor
                            | none => false) })) with
              | error e =>
                rw [hR] at h
                exact absurd h (by simp)
              | ok pair =>
                obtain ⟨b2, s3⟩ := pair
                rw [hR] at h
                cases h
                exact hs2.trans (ih.1 id _ b2 _ hR)
            · exact hs1.trans (ih.2.2 r.parents _ s' h)

theorem renderDirtyStep_doc (rf : RenderFn) (id : Nat) (r : RState)
    (s1 : Store) : (renderDirtyStep rf id r s1).2.2.doc = s1.doc := by
  rw [renderDirtyStep_store, Store.doc_upd, Store.doc_upd,
    detachChildren_doc, Store.doc_upd]

theorem renderDirtyStep_renderstack (rf : RenderFn) (id : Nat) (r : RState)
    (s1 : Store) :
    (renderDirtyStep rf id r s1).2.2.renderstack = s1.renderstack := by
  rw [renderDirtyStep_store, Store.renderstack_upd, Store.renderstack_upd,
    detachChildren_renderstack, Store.renderstack_upd]

theorem renderDirtyStep_get?_self (rf : RenderFn) (id : Nat) (r : RState)
    (s1 : Store) (h1 : s1.get? id = some r) :
    (renderDirtyStep rf id r s1).2.2.get? id =
      some { r with
        parents :=
          if id ∈ r.children then r.parents.filter (· ≠ id) else r.parents
        children := []
        cache := some (rf id r.values)
        cache_final :=
          if r.cache ≠ some (rf id r.values) then some (rf id r.values)
          else r.cache_final
        dirty := false
        rendering := false } := by
  rw [renderDirtyStep_store]
  by_cases hc : id ∈ r.children
  · simp [Store.get?_upd, detachChildren_get?, h1, hc]
  · simp [Store.get?_upd, detachChildren_get?, h1, hc]

theorem renderDirtyStep_get?_other (rf : RenderFn) (id : Nat) (r : RState)
    (s1 : Store) (m : Nat) (hm : m ≠ id) :
    (renderDirtyStep rf id r s1).2.2.get? m =
      if m ∈ r.children then
        (s1.get? m).map
          (fun x => { x with parents := x.parents.filter (· ≠ id) })
      else s1.get? m := by
  rw [renderDirtyStep_store]
  simp only [Store.get?_upd, if_neg hm, detachChildren_get?]

/-- A render whose output matches the cache is a no-op on the document and
returns false: the idempotence core.  Requires an empty render stack (a
top-level call). -/
theorem renderE_nochange (rf : RenderFn) (fuel : Nat) (id : Nat) (s : Store)
    (r : RState) (hG : s.get? id = some r) (hstack : s.renderstack = [])
    (hrend : r.rendering = false)
    (hcache : r.cache = some (rf id r.values)) :
    ∃ s2, renderE rf fuel id s = .ok (false, s2) ∧ s2.doc = s.doc := by
  cases fuel with
  | zero => exact ⟨s, by simp [renderE], rfl⟩
  | succ fuel =>
    simp only [renderE]
    rw [hG]
    dsimp only
    by_cases hguard : (decide (r.locked ≠ 0) || decide (r.dirty = false)) = true
    · rw [if_pos hguard]
      exact ⟨s, rfl, rfl⟩
    · rw [if_neg hguard]
      have hd : r.dirty = true := by
        rcases Bool.or_eq_false_iff.mp (Bool.not_eq_true _ |>.mp hguard)
          with ⟨-, h2⟩
        simpa using h2
      by_cases hcons : r.constructing = true
      · rw [if_pos hcons]
        rw [internalRender_clean rf id s r hG hstack hrend hd]
        dsimp only
        rw [renderDirtyStep_changed]
        have hch : (decide (r.cache ≠ some (rf id r.values))) = false := by
          simp [hcache]
        rw [hch]
        rw [if_pos (by simp)]
        refine ⟨_, rfl, ?_⟩
        rw [Store.doc_upd, renderDirtyStep_doc]
      · rw [if_neg hcons]
        have hG1 : (s.upd id (fun x => { x with parents := [] })).get? id =
            some { r with parents := [] } := by
          rw [Store.get?_upd, if_pos rfl, hG]
          rfl
        rw [internalRender_clean rf id _ { r with parents := [] } hG1
          (by rw [Store.renderstack_upd, hstack]) hrend hd]
        dsimp only
        rw [renderDirtyStep_changed]
        have hch : (decide (({ r with parents := ([] : List Nat) }).cache ≠
            some (rf id ({ r with parents := ([] : List Nat) }).values))) =
              false := by
          simp only []
          simp [hcache]
        rw [hch]
        rw [if_pos (by simp)]
        refine ⟨_, rfl, ?_⟩
        rw [Store.doc_upd, renderDirtyStep_doc, Store.doc_upd]

/-! ## The headless bubble-up (C1 infrastructure) -/

/-- Every node's transitive anchor flag is false: a fully headless graph
("no anchor and no anchored ancestor"). -/
def AllHeadless (s : Store) : Prop :=
  ∀ m r, s.get? m = some r → r.has_anchor = false

/-- All a headless invalidation cascade can do to the state: set dirty
flags.  Document, render stack, and every other node field are untouched. -/
def HeadlessLe (s s' : Store) : Prop :=
  s'.doc = s.doc ∧ s'.renderstack = s.renderstack ∧
  ∀ m, s'.get? m = s.get? m ∨
    ∃ r, s.get? m = some r ∧ s'.get? m = some { r with dirty := true }

theorem headlessLeRefl (s : Store) : HeadlessLe s s :=
  ⟨rfl, rfl, fun _ => Or.inl rfl⟩

theorem headlessLeTrans {s1 s2 s3 : Store} (h12 : HeadlessLe s1 s2)
    (h23 : HeadlessLe s2 s3) : HeadlessLe s1 s3 := by
  refine ⟨h23.1.trans h12.1, h23.2.1.trans h12.2.1, fun m => ?_⟩
  rcases h12.2.2 m with h | ⟨r, hr, hr'⟩
  · rcases h23.2.2 m with h' | ⟨r2, hr2, hr2'⟩
    · exact Or.inl (h'.trans h)
    · exact Or.inr ⟨r2, h ▸ hr2, hr2'⟩
  · rcases h23.2.2 m with h' | ⟨r2, hr2, hr2'⟩
    · exact Or.inr ⟨r, hr, h'.trans hr'⟩
    · refine Or.inr ⟨r, hr, ?_⟩
      rw [hr'] at hr2
      cases hr2
      exact hr2'

theorem HeadlessLe.dirtySet (s : Store) (id : Nat) :
    HeadlessLe s (s.upd id (fun x => { x with dirty := true })) := by
  refine ⟨rfl, rfl, fun m => ?_⟩
  rw [Store.get?_upd]
  by_cases hm : m = id
  · rw [if_pos hm]
    subst hm
    cases hG : s.get? m with
    | none => exact Or.inl rfl
    | some r => exact Or.inr ⟨r, rfl, rfl⟩
  · rw [if_neg hm]
    exact Or.inl rfl

theorem AllHeadless.mono {s s' : Store} (hH : AllHeadless s)
    (hle : HeadlessLe s s') : AllHeadless s' := by
  intro m r hr
  rcases hle.2.2 m with h | ⟨r0, hr0, hr0'⟩
  · exact hH m r (h ▸ hr)
  · rw [hr0'] at hr
    cases hr
    exact hH m r0 hr0

/-- In a fully headless graph, invalidation never renders and never touches
the document: it only marks dirty flags, recursively through parents. -/
theorem invalidate_headless (rf : RenderFn) : ∀ fuel : Nat,
    (∀ id s s', AllHeadless s → invalidateE rf fuel id s = .ok s' →
      HeadlessLe s s') ∧
    (∀ ps s s', AllHeadless s → invalidateAll rf fuel ps s = .ok s' →
      HeadlessLe s s') := by
  intro fuel
  induction fuel with
  | zero =>
    constructor
    · intro id s s' hH h
      simp only [invalidateE] at h
      cases h
      exact headlessLeRefl s
    · intro ps s s' hH h
      cases ps with
      | nil =>
        simp only [invalidateAll] at h
        cases h
        exact headlessLeRefl s
      | cons p rest =>
        simp only [invalidateAll] at h
        cases h
        exact headlessLeRefl s
  | succ fuel ih =>
    have hAllS : ∀ ps s s', AllHeadless s →
        invalidateAll rf (fuel + 1) ps s = .ok s' → HeadlessLe s s' := by
      intro ps
      induction ps with
      | nil =>
        intro s s' hH h
        simp only [invalidateAll] at h
        cases h
        exact headlessLeRefl s
      | cons p rest ihp =>
        intro s s' hH h
        simp only [invalidateAll] at h
        cases hstep : invalidateE rf fuel p s with
        | error e =>
          rw [hstep] at h
          exact absurd h (by simp)
        | ok s1 =>
          rw [hstep] at h
          dsimp only at h
          have h1 := ih.1 p s s1 hH hstep
          exact headlessLeTrans h1 (ih.2 rest s1 s' (hH.mono h1) h)
    have hInvS : ∀ id s s', AllHeadless s →
        invalidateE rf (fuel + 1) id s = .ok s' → HeadlessLe s s' := by
      intro id s s' hH h
      simp only [invalidateE] at h
      cases hG : s.get? id with
      | none =>
        rw [hG] at h
        exact absurd h (by simp)
      | some r =>
        rw [hG] at h
        dsimp only at h
        split at h
        · cases h
          exact headlessLeRefl s
        · have hdle := HeadlessLe.dirtySet s id
          split at h
          · cases h
            exact hdle
          · rw [if_neg (by simp [hH id r hG])] at h
            exact headlessLeTrans hdle
              (ih.2 r.parents _ s' (hH.mono hdle) h)
    exact ⟨hInvS, hAllS⟩

/-- The nodes whose handlers the ancestor walk invokes over these
(element, registry id) pairs: ids that deref to a live node carrying a
handler for the event type. -/
def firedNodes (rt : Router) (ty : String) (pairs : List (Nat × Nat)) :
    List Nat :=
  pairs.filterMap (fun ei =>
    match rt.deref ei.2 with
    | none => none
    | some rid =>
      match rt.handlers rid ty with
      | none => none
      | some _ => some rid)

/-- If every handler matched before position k returns truthy and the
handler at position k returns falsy, the ancestor walk halts at k: the
handlers that fire are exactly those before k plus k itself. -/
theorem walkPairs_halts (rt : Router) (ev : RawEvent)
    (pre : List (Nat × Nat)) (badEl badI badRid : Nat) (hbadH : Handler)
    (post : List (Nat × Nat))
    (hpre : ∀ p ∈ pre, ∀ rid h, rt.deref p.2 = some rid →
      rt.handlers rid ev.type = some h → ∀ arg, (h arg).truthy = true)
    (hd : rt.deref badI = some badRid)
    (hh : rt.handlers badRid ev.type = some hbadH)
    (hfalsy : ∀ arg, (hbadH arg).truthy = false) :
    ∀ ren c tr, ∃ tr',
      walkPairs rt ev (pre ++ (badEl, badI) :: post) ren c tr = .halted tr' ∧
      tr'.map Prod.fst =
        tr.map Prod.fst ++ firedNodes rt ev.type pre ++ [badRid] := by
  induction pre with
  | nil =>
    intro ren c tr
    simp only [List.nil_append, walkPairs, hd]
    rw [hh]
    dsimp only
    rw [if_neg (by rw [hfalsy]; exact Bool.false_ne_true)]
    refine ⟨_, rfl, ?_⟩
    simp [firedNodes]
  | cons p pre' ih =>
    intro ren c tr
    obtain ⟨el, i⟩ := p
    have hpre' : ∀ p ∈ pre', ∀ rid h, rt.deref p.2 = some rid →
        rt.handlers rid ev.type = some h → ∀ arg, (h arg).truthy = true :=
      fun p hp => hpre p (List.mem_cons_of_mem _ hp)
    simp only [List.cons_append, walkPairs]
    cases hdi : rt.deref i with
    | none =>
      dsimp only
      obtain ⟨tr', hw, hm⟩ := ih hpre' _ c tr
      refine ⟨tr', hw, ?_⟩
      rw [hm]
      simp [firedNodes, hdi]
    | some rid =>
      dsimp only
      cases hh2 : rt.handlers rid ev.type with
      | none =>
        dsimp only
        obtain ⟨tr', hw, hm⟩ := ih hpre' _ c tr
        refine ⟨tr', hw, ?_⟩
        rw [hm]
        simp [firedNodes, hdi, hh2]
      | some h2 =>
        dsimp only
        rw [if_pos (hpre (el, i) (List.mem_cons_self _ _) rid h2 hdi hh2 _)]
        obtain ⟨tr', hw, hm⟩ := ih hpre' _ true (tr ++ [(rid, _)])
        refine ⟨tr', hw, ?_⟩
        rw [hm]
        simp [firedNodes, hdi, hh2]

theorem alookup_setAList (l : List (String × String)) (name v : String) :
    alookup (setAList l name v) name = some v := by
  unfold setAList
  by_cases h : (alookup l name).isSome
  · rw [if_pos h]
    induction l with
    | nil => simp [alookup] at h
    | cons kv t ih =>
      by_cases hk : kv.1 = name
      · simp [alookup, hk]
      · simp only [List.map_cons, if_neg hk, alookup, hk, if_false]
        apply ih
        simpa [alookup, hk] using h
  · rw [if_neg h]
    induction l with
    | nil => simp [alookup]
    | cons kv t ih =>
      by_cases hk : kv.1 = name
      · exfalso
        apply h
        simp [alookup, hk]
      · simp only [alookup, List.cons_append, hk, if_false]
        apply ih
        intro h2
        apply h
        simp [alookup, hk, h2]

theorem alookup_mem {α β : Type} [DecidableEq α] (l : List (α × β)) (k : α)
    (v : β) (h : alookup l k = some v) : (k, v) ∈ l := by
  induction l with
  | nil => simp [alookup] at h
  | cons kv t ih =>
    by_cases hk : kv.1 = k
    · rw [alookup, if_pos hk] at h
      cases h
      rw [← hk]
      exact List.mem_cons_self _ _
    · rw [alookup, if_neg hk] at h
      exact List.mem_cons_of_mem _ (ih h)

/-- Entry-wise check sufficient for `AllHeadless` on a concrete store. -/
theorem AllHeadless_of_list (s : Store)
    (h : ∀ kv ∈ s.nodes, kv.2.has_anchor = false) : AllHeadless s := by
  intro m r hr
  exact h (m, r) (alookup_mem s.nodes m r hr)

/-! ## The claims -/

/-- A fresh, fully constructed, unlocked, clean, unanchored renderable
record, used as a base for concrete stores. -/
def baseR : RState :=
  { values := [], locked := 0, dirty := false, anchor := [], children := []
    parents := [], cache := none, cache_final := none, rendering := false
    constructing := false, has_anchor := false }

/-- A render function for concrete examples: renders the "txt" field. -/
def rfX : RenderFn := fun _ vs => (alookup vs "txt").getD ""

/-- C3 (code bug): the spec says lock counts nest — locking an
already-locked node is not an error.  The code's own doc comment agrees
("Objects can be locked multiple times simultaneously", and unlock
"removes only one lock"), and `locked` is maintained as a counter; but
`Renderable.lock` throws "Tried to lock locked renderable." whenever the
count is nonzero, so a second lock is impossible.  This theorem evaluates
the embedded code at the failing input: a node already locked once. -/
theorem c3_lock_rejects_nesting :
    lockE 0 (Store.mk [(0, { baseR with locked := 1 })] [] []) =
      .error "Tried to lock locked renderable." := rfl

/-- C6: invoking the node's render function while that node's `rendering`
flag is already true throws the fatal "Fractal rendering occurred!" error
instead of recursing. -/
theorem c6_fractal_guard (rf : RenderFn) (id : Nat) (s : Store) (r : RState)
    (hG : s.get? id = some r) (hrend : r.rendering = true) :
    internalRender rf id s = .error "Fractal rendering occurred!" := by
  unfold internalRender
  rw [hG]
  dsimp only
  rw [if_pos hrend]

/-- C6 witness: a concrete mid-render node. -/
theorem c6_fractal_guard_witness :
    (Store.mk [(0, { baseR with rendering := true })] [] []).get? 0 =
        some { baseR with rendering := true } ∧
      internalRender rfX 0
          (Store.mk [(0, { baseR with rendering := true })] [] []) =
        .error "Fractal rendering occurred!" :=
  ⟨rfl, c6_fractal_guard rfX 0 _ { baseR with rendering := true } rfl rfl⟩

/-- Whether an embedded operation threw (reached a JavaScript `throw`). -/
def threw : Except String Store → Bool
  | .error _ => true
  | .ok _ => false

/-- C7 counterexample: the claim says unlocking a node that is not locked
raises a usage error synchronously.  The code silently ignores it: on a
concrete unlocked node, unlock returns the state unchanged and throws
nothing. -/
theorem c7_counterexample :
    unlockE rfX 5 0 (Store.mk [(0, baseR)] [] []) =
        .ok (Store.mk [(0, baseR)] [] []) ∧
      threw (unlockE rfX 5 0 (Store.mk [(0, baseR)] [] [])) = false :=
  ⟨rfl, rfl⟩

/-- C7 (amended): calling unlock on a node that is not locked is a silent
no-op — the state is unchanged and no error is raised; removing the last
lock while the node is constructing decrements the count but performs no
deferred render (and also raises no error). -/
theorem c7_unlock_amended (rf : RenderFn) (fuel : Nat) (id : Nat) (s : Store)
    (r : RState) (hG : s.get? id = some r) :
    (r.locked = 0 → unlockE rf fuel id s = .ok s) ∧
    (r.locked = 1 → r.constructing = true →
      unlockE rf fuel id s =
        .ok (s.upd id (fun x => { x with locked := x.locked - 1 }))) := by
  constructor
  · intro h0
    unfold unlockE
    rw [hG]
    dsimp only
    rw [if_neg (by simp [h0])]
  · intro h1 hcons
    unfold unlockE
    rw [hG]
    dsimp only
    rw [if_pos (by simp [h1]), if_neg (by simp [hcons])]

/-- A locked, dirty, still-constructing node for the C7 witness. -/
def c7r : RState :=
  { baseR with locked := 1, constructing := true, dirty := true }

/-- Concrete stores for the C7 witness. -/
def c7sA : Store := Store.mk [(0, baseR)] [] []

def c7sB : Store := Store.mk [(0, c7r)] [] []

/-- C7 witness: both amended behaviours at concrete inputs. -/
theorem c7_unlock_amended_witness :
    unlockE rfX 5 0 c7sA = .ok c7sA ∧
      unlockE rfX 5 0 c7sB =
        .ok (c7sB.upd 0 (fun x => { x with locked := x.locked - 1 })) :=
  ⟨(c7_unlock_amended rfX 5 0 c7sA baseR rfl).1 rfl,
   (c7_unlock_amended rfX 5 0 c7sB c7r rfl).2 rfl rfl⟩

/-- C9: the setter installed by addFields for a tracked field of a plain
fields object is a complete no-op when the assigned value is strictly equal
to the stored one (no store change, no invalidate); when it differs, the
value is stored and invalidate is applied exactly once to the owning
object — and the stored value survives the invalidation cascade. -/
theorem c9_tracked_setter (rf : RenderFn) (fuel : Nat) (id : Nat)
    (name value v0 : String) (s : Store) (r : RState)
    (hG : s.get? id = some r) (hv : alookup r.values name = some v0) :
    (value = v0 → trackedSet rf fuel id name value s = .ok s) ∧
    (value ≠ v0 →
      trackedSet rf fuel id name value s =
        invalidateE rf fuel id
          (s.upd id
            (fun x => { x with values := setAList x.values name value })) ∧
      ∀ s', trackedSet rf fuel id name value s = .ok s' →
        ∃ r', s'.get? id = some r' ∧ alookup r'.values name = some value) := by
  have hstored : (s.get? id).bind (fun x => alookup x.values name) = some v0 := by
    rw [hG]
    exact hv
  constructor
  · intro hveq
    unfold trackedSet
    rw [if_neg (by rw [hstored, hveq]; simp)]
  · intro hvne
    have heq : trackedSet rf fuel id name value s =
        invalidateE rf fuel id
          (s.upd id
            (fun x => { x with values := setAList x.values name value })) := by
      unfold trackedSet
      rw [if_pos (by
        rw [hstored]
        simp only [ne_eq, Option.some.injEq]
        exact fun h => hvne h.symm)]
    refine ⟨heq, fun s' h' => ?_⟩
    rw [heq] at h'
    have hAgree := (render_invalidate_agree rf fuel).2.1 id _ s' h'
    have hU : (s.upd id
        (fun x => { x with values := setAList x.values name value })).get? id =
        some { r with values := setAList r.values name value } := by
      rw [Store.get?_upd, if_pos rfl, hG]
      rfl
    have hn := hAgree.2 id
    rw [hU] at hn
    cases hs' : s'.get? id with
    | none =>
      rw [hs'] at hn
      exact absurd hn (by simp [NodeAgree])
    | some r' =>
      rw [hs'] at hn
      refine ⟨r', rfl, ?_⟩
      rw [hn.2.2.1]
      exact alookup_setAList r.values name value

/-- A node with one tracked field "txt" = "a", for the C9 witness. -/
def c9r : RState := { baseR with values := [("txt", "a")] }

def c9s : Store := Store.mk [(0, c9r)] [] []

/-- C9 witness: assigning the stored value is a no-op; assigning a new one
routes through exactly one invalidation of the owner. -/
theorem c9_tracked_setter_witness :
    (trackedSet rfX 3 0 "txt" "a" c9s = .ok c9s) ∧
    (trackedSet rfX 3 0 "txt" "b" c9s =
      invalidateE rfX 3 0
        (c9s.upd 0 (fun x => { x with values := setAList x.values "txt" "b" }))) :=
  ⟨(c9_tracked_setter rfX 3 0 "txt" "a" "a" c9s c9r rfl rfl).1 rfl,
   ((c9_tracked_setter rfX 3 0 "txt" "b" "a" c9s c9r rfl rfl).2
      (by simp)).1⟩

/-- Registry for the C4 failing input: id 10 resolves to live node 100. -/
def c4deref : Nat → Option Nat
  | 10 => some 100
  | _ => none

/-- The matched ancestor handler for C4: returns `true`, a value that is
both non-undefined and truthy. -/
def c4h : Handler := fun _ => .boolV true

/-- Handler tables for C4: node 100 (matched on the walk) and node 200
(the designated click fallback) both handle "click". -/
def c4handlers : Nat → String → Option Handler
  | 100, _ => some c4h
  | 200, _ => some c4h
  | _, _ => none

def c4rt : Router :=
  { deref := c4deref, handlers := c4handlers
    parentsOf := fun _ => [], fallback := some 200 }

/-- A click whose target element carries renderable id 10. -/
def c4ev : RawEvent :=
  { type := "click", key := none, dataVal := none, target := 1
    chain := [(1, [10])] }

/-- C4 (code bug): the claim — and the intent witnessed by the dead
`called` accumulator in the source — is that the per-event-type fallback
node is consulted only when no handler along the ancestor walk returned
non-undefined.  The code never reads `called`: here node 100's handler
matches and returns `true` (non-undefined), yet the fallback node 200's
handler fires as well. -/
theorem c4_fallback_fires_despite_match :
    c4rt.handlers 100 "click" = some c4h ∧
      (∀ arg, c4h arg = .boolV true) ∧
      c4rt.fallback = some 200 ∧
      (routeEvent c4rt c4ev 5).trace.map Prod.fst = [100, 200] :=
  ⟨rfl, fun _ => rfl, rfl, rfl⟩

/-- C8: when a matched handler returns a falsy value, the router cancels
the platform default action (preventDefault) and halts all further
matching: the handlers that fire are exactly the truthy matches strictly
before it on the ancestor walk plus the falsy one itself — in particular no
later ancestor handler and no fallback-chain handler fires. -/
theorem c8_falsy_halts (rt : Router) (ev : RawEvent)
    (pre : List (Nat × Nat)) (badEl badI badRid : Nat) (hbadH : Handler)
    (post : List (Nat × Nat)) (fuel : Nat)
    (hflat : flattenChain ev.chain = pre ++ (badEl, badI) :: post)
    (hpre : ∀ p ∈ pre, ∀ rid h, rt.deref p.2 = some rid →
      rt.handlers rid ev.type = some h → ∀ arg, (h arg).truthy = true)
    (hd : rt.deref badI = some badRid)
    (hh : rt.handlers badRid ev.type = some hbadH)
    (hfalsy : ∀ arg, (hbadH arg).truthy = false) :
    (routeEvent rt ev fuel).prevented = true ∧
    (routeEvent rt ev fuel).trace.map Prod.fst =
      firedNodes rt ev.type pre ++ [badRid] := by
  unfold routeEvent
  rw [hflat]
  obtain ⟨tr', hw, hm⟩ := walkPairs_halts rt ev pre badEl badI badRid hbadH
    post hpre hd hh hfalsy none false []
  rw [hw]
  refine ⟨rfl, ?_⟩
  rw [hm]
  simp

/-- Registry for the C8 witness: three ancestors resolve to nodes 100
(truthy handler), 101 (falsy handler) and 102 (handler that must not
fire). -/
def c8deref : Nat → Option Nat
  | 10 => some 100
  | 11 => some 101
  | 12 => some 102
  | _ => none

def c8handlers : Nat → String → Option Handler
  | 100, _ => some (fun _ => .boolV true)
  | 101, _ => some (fun _ => .boolV false)
  | 102, _ => some (fun _ => .boolV true)
  | 200, _ => some (fun _ => .boolV true)
  | _, _ => none

def c8rt : Router :=
  { deref := c8deref, handlers := c8handlers
    parentsOf := fun _ => [], fallback := some 200 }

def c8ev : RawEvent :=
  { type := "click", key := none, dataVal := none, target := 1
    chain := [(1, [10, 11, 12])] }

/-- C8 witness: with handlers 100 (truthy), 101 (falsy), 102 and fallback
200 installed, routing stops after 101: 102 and the fallback never fire and
the default action is cancelled. -/
theorem c8_falsy_halts_witness :
    (routeEvent c8rt c8ev 5).prevented = true ∧
    (routeEvent c8rt c8ev 5).trace.map Prod.fst =
      firedNodes c8rt "click" [(1, 10)] ++ [101] := by
  refine c8_falsy_halts c8rt c8ev [(1, 10)] 1 11 101
    (fun _ => .boolV false) [(1, 12)] 5 rfl ?_ rfl rfl (fun _ => rfl)
  intro p hp rid h hd hh arg
  rw [List.mem_singleton] at hp
  subst hp
  rw [show c8rt.deref 10 = some 100 from rfl] at hd
  cases hd
  rw [show c8rt.handlers 100 c8ev.type = some (fun _ => .boolV true) from rfl]
    at hh
  cases hh
  rfl

theorem renderDirtyStep_eta (rf : RenderFn) (id : Nat) (r : RState)
    (s1 : Store) :
    renderDirtyStep rf id r s1 =
      ((renderDirtyStep rf id r s1).1, (renderDirtyStep rf id r s1).2.1,
        (renderDirtyStep rf id r s1).2.2) := rfl

/-- C1: invalidating an unlocked, fully constructed node in a fully
headless graph (its transitive anchor flag is false, and — "no anchored
ancestor" — so is every other node's): the node's own step neither renders
nor writes the document, it marks the node dirty and then applies
invalidate directly to every node currently in its parents set; the whole
cascade leaves the document and render stack untouched and the node dirty
with its cache, values and edges intact, so that a later render (say after
an anchor attachment) recomputes the cache from the current values. -/
theorem c1_headless_invalidate (rf : RenderFn) (fuel : Nat) (id : Nat)
    (s : Store) (r : RState) (hG : s.get? id = some r)
    (hcons : r.constructing = false) (hl : r.locked = 0)
    (hanch : r.has_anchor = false) (hH : AllHeadless s)
    (hstack : s.renderstack = []) (hre : r.rendering = false) :
    invalidateE rf (fuel + 1) id s =
      invalidateAll rf fuel r.parents
        (s.upd id (fun x => { x with dirty := true })) ∧
    ∀ s', invalidateE rf (fuel + 1) id s = .ok s' →
      s'.doc = s.doc ∧ s'.renderstack = s.renderstack ∧
      s'.get? id = some { r with dirty := true } ∧
      ∃ out ch st, internalRender rf id s' = .ok (out, ch, st) ∧
        ∃ r2, st.get? id = some r2 ∧ r2.cache = some (rf id r.values) ∧
          r2.dirty = false ∧ r2.rendering = false := by
  have heq : invalidateE rf (fuel + 1) id s =
      invalidateAll rf fuel r.parents
        (s.upd id (fun x => { x with dirty := true })) := by
    simp only [invalidateE]
    rw [hG]
    dsimp only
    rw [if_neg (by simp [hcons]), if_neg (by simp [hl]),
      if_neg (by simp [hanch])]
  refine ⟨heq, fun s' h' => ?_⟩
  rw [heq] at h'
  have hH1 : AllHeadless (s.upd id (fun x => { x with dirty := true })) :=
    hH.mono (HeadlessLe.dirtySet s id)
  have hle := (invalidate_headless rf fuel).2 r.parents _ s' hH1 h'
  have hle0 := headlessLeTrans (HeadlessLe.dirtySet s id) hle
  have hid1 : (s.upd id (fun x => { x with dirty := true })).get? id =
      some { r with dirty := true } := by
    rw [Store.get?_upd, if_pos rfl, hG]
    rfl
  have hid' : s'.get? id = some { r with dirty := true } := by
    rcases hle.2.2 id with h | ⟨r0, hr0, hr0'⟩
    · rw [h, hid1]
    · rw [hid1] at hr0
      cases hr0
      rw [hr0']
  refine ⟨hle0.1, hle0.2.1, hid', ?_⟩
  have hclean := internalRender_clean rf id s' { r with dirty := true } hid'
    (by rw [hle0.2.1, hstack]) hre rfl
  exact ⟨_, _, _, hclean,
    ⟨_, renderDirtyStep_get?_self rf id _ s' hid', rfl, rfl, rfl⟩⟩

/-- The node on which the C1 witness invalidates: headless, with one
parent. -/
def c1r : RState := { baseR with parents := [1] }

/-- A two-node headless chain: node 0 with parent node 1. -/
def c1s : Store :=
  Store.mk [(0, c1r), (1, { baseR with children := [0] })] [] []

/-- C1 witness: the headless bubble-up on the concrete two-node chain. -/
theorem c1_headless_invalidate_witness :
    invalidateE rfX 4 0 c1s =
      invalidateAll rfX 3 [1]
        (c1s.upd 0 (fun x => { x with dirty := true })) ∧
    ∀ s', invalidateE rfX 4 0 c1s = .ok s' →
      s'.doc = c1s.doc ∧ s'.renderstack = c1s.renderstack ∧
      s'.get? 0 = some { c1r with dirty := true } ∧
      ∃ out ch st, internalRender rfX 0 s' = .ok (out, ch, st) ∧
        ∃ r2, st.get? 0 = some r2 ∧ r2.cache = some (rfX 0 c1r.values) ∧
          r2.dirty = false ∧ r2.rendering = false :=
  c1_headless_invalidate rfX 3 0 c1s c1r rfl rfl rfl rfl
    (AllHeadless_of_list c1s (by decide)) rfl rfl

/-- C10: rendering a dirty, unlocked, fully constructed node whose render
pass reports no change returns false, restores the parents set to exactly
the snapshot taken at the start of the call, leaves the document untouched,
and invalidates no previous parent (no other node's dirty flag changes). -/
theorem c10_nochange_restores_parents (rf : RenderFn) (fuel : Nat) (id : Nat)
    (s : Store) (r : RState) (hG : s.get? id = some r) (hd : r.dirty = true)
    (hl : r.locked = 0) (hcons : r.constructing = false)
    (hre : r.rendering = false) (hstack : s.renderstack = [])
    (hnc : r.cache = some (rf id r.values)) :
    ∃ s1, renderE rf (fuel + 1) id s = .ok (false, s1) ∧
      (∃ r1, s1.get? id = some r1 ∧ r1.parents = r.parents ∧
        r1.dirty = false) ∧
      s1.doc = s.doc ∧
      ∀ m, m ≠ id → (s1.get? m).map (fun x => x.dirty) =
        (s.get? m).map (fun x => x.dirty) := by
  have hG1 : (s.upd id (fun x => { x with parents := [] })).get? id =
      some { r with parents := [] } := by
    rw [Store.get?_upd, if_pos rfl, hG]
    rfl
  have hclean := internalRender_clean rf id
    (s.upd id (fun x => { x with parents := [] }))
    { r with parents := [] } hG1
    (by rw [Store.renderstack_upd, hstack]) hre hd
  have hchf : (decide (({ r with parents := ([] : List Nat) }).cache ≠
      some (rf id ({ r with parents := ([] : List Nat) }).values))) = false := by
    simp only []
    simp [hnc]
  simp only [renderE]
  rw [hG]
  dsimp only
  rw [if_neg (by simp [hl, hd]), if_neg (by simp [hcons]), hclean,
    renderDirtyStep_eta, renderDirtyStep_changed, hchf]
  dsimp only
  rw [if_pos (by simp)]
  refine ⟨_, rfl, ?_, ?_, ?_⟩
  · rw [Store.get?_upd, if_pos rfl,
      renderDirtyStep_get?_self rf id _ _ hG1]
    exact ⟨_, rfl, rfl, rfl⟩
  · rw [Store.doc_upd, renderDirtyStep_doc, Store.doc_upd]
  · intro m hm
    rw [Store.get?_upd, if_neg hm,
      renderDirtyStep_get?_other rf id _ _ m hm]
    by_cases hc : m ∈ ({ r with parents := ([] : List Nat) }).children
    · rw [if_pos hc, Store.get?_upd, if_neg hm]
      cases s.get? m with
      | none => rfl
      | some rm => rfl
    · rw [if_neg hc, Store.get?_upd, if_neg hm]

/-- The node on which the C10 witness renders: dirty with its cache already
matching its rendered output, and one (previous) parent. -/
def c10r : RState :=
  { baseR with
    dirty := true
    values := [("txt", "t")]
    cache := some "t"
    parents := [1] }

def c10s : Store :=
  Store.mk [(0, c10r), (1, { baseR with children := [0] })] [(7, "t")] []

/-- C10 witness: the no-change render on the concrete store. -/
theorem c10_nochange_restores_parents_witness :
    ∃ s1, renderE rfX 4 0 c10s = .ok (false, s1) ∧
      (∃ r1, s1.get? 0 = some r1 ∧ r1.parents = c10r.parents ∧
        r1.dirty = false) ∧
      s1.doc = c10s.doc ∧
      ∀ m, m ≠ 0 → (s1.get? m).map (fun x => x.dirty) =
        (c10s.get? m).map (fun x => x.dirty) :=
  c10_nochange_restores_parents rfX 3 0 c10s c10r rfl rfl rfl rfl rfl rfl rfl

/-- C5: render returns false immediately with no side effects when the
node is locked or not dirty; and rendering is idempotent: after any
successful top-level render call on an unlocked, fully constructed node, a
second call with no intervening mutation returns false and performs no
document mutation. -/
theorem c5_render_guard_idempotent (rf : RenderFn) (fuel g : Nat) (id : Nat)
    (s : Store) (r : RState) (hG : s.get? id = some r) :
    ((r.locked ≠ 0 ∨ r.dirty = false) →
      renderE rf fuel id s = .ok (false, s)) ∧
    (r.locked = 0 → r.constructing = false → r.rendering = false →
      s.renderstack = [] →
      ∀ b s1, renderE rf (fuel + 1) id s = .ok (b, s1) →
        ∃ s2, renderE rf g id s1 = .ok (false, s2) ∧ s2.doc = s1.doc) := by
  constructor
  · intro hguard
    have hg : (decide (r.locked ≠ 0) || decide (r.dirty = false)) = true := by
      rcases hguard with h | h <;> simp [h]
    cases fuel with
    | zero => simp [renderE]
    | succ fuel =>
      simp only [renderE]
      rw [hG]
      dsimp only
      rw [if_pos hg]
  · intro hl hcons hre hstack b s1 h
    by_cases hguard :
        (decide (r.locked ≠ 0) || decide (r.dirty = false)) = true
    · rw [show renderE rf (fuel + 1) id s = .ok (false, s) by
        simp only [renderE]
        rw [hG]
        dsimp only
        rw [if_pos hguard]] at h
      cases h
      cases g with
      | zero => exact ⟨s, by simp [renderE], rfl⟩
      | succ g =>
        refine ⟨s, ?_, rfl⟩
        simp only [renderE]
        rw [hG]
        dsimp only
        rw [if_pos hguard]
    · have hd : r.dirty = true := by
        rcases Bool.eq_false_or_eq_true r.dirty with hT | hF
        · exact hT
        · exact absurd (by simp [hF]) hguard
      have hG1 : (s.upd id (fun x => { x with parents := [] })).get? id =
          some { r with parents := [] } := by
        rw [Store.get?_upd, if_pos rfl, hG]
        rfl
      simp only [renderE] at h
      rw [hG] at h
      dsimp only at h
      rw [if_neg hguard, if_neg (by simp [hcons]),
        internalRender_clean rf id _ { r with parents := [] } hG1
          (by rw [Store.renderstack_upd]; exact hstack) hre hd,
        renderDirtyStep_eta, renderDirtyStep_changed] at h
      dsimp only at h
      by_cases hch : (decide (r.cache ≠ some (rf id r.values))) = true
      · -- visible change: the anchors are patched and the previous parents
        -- re-invalidated; the cascade leaves the cache consistent.
        rw [if_neg (by rw [hch]; simp), if_neg (by simp [hcons])] at h
        cases hIA : invalidateAll rf fuel r.parents
            (patchAnchors r.anchor
              (renderDirtyStep rf id { r with parents := [] }
                (s.upd id (fun x => { x with parents := [] }))).1
              (renderDirtyStep rf id { r with parents := [] }
                (s.upd id (fun x => { x with parents := [] }))).2.2) with
        | error e =>
          rw [hIA] at h
          exact absurd h (by simp)
        | ok s4 =>
          rw [hIA] at h
          cases h
          have hA := (render_invalidate_agree rf fuel).2.2 r.parents _ _ hIA
          have hS := patchAnchors_get? r.anchor
            (renderDirtyStep rf id { r with parents := [] }
              (s.upd id (fun x => { x with parents := [] }))).1
            (renderDirtyStep rf id { r with parents := [] }
              (s.upd id (fun x => { x with parents := [] }))).2.2 id
          rw [renderDirtyStep_get?_self rf id _ _ hG1] at hS
          have hsr1 : s1.renderstack = [] := by
            rw [hA.1, patchAnchors_renderstack, renderDirtyStep_renderstack,
              Store.renderstack_upd]
            exact hstack
          have hn := hA.2 id
          rw [hS] at hn
          cases hs1g : s1.get? id with
          | none =>
            rw [hs1g] at hn
            exact absurd hn (by simp [NodeAgree])
          | some r4 =>
            rw [hs1g] at hn
            obtain ⟨hlok, hcon, hval, hanc, hrnd, hcach, hcf⟩ := hn
            have hc4 : r4.cache = some (rf id r4.values) := by
              rcases hcach with hc1 | hc2
              · rw [hc1, hval]
              · rw [hc2, hval]
            exact renderE_nochange rf g id s1 r4 hs1g hsr1 hrnd hc4
      · -- no visible change: the snapshot parents are restored and the
        -- second call hits the same cache.
        have hchf : (decide (r.cache ≠ some (rf id r.values))) = false := by
          revert hch
          cases (decide (r.cache ≠ some (rf id r.values))) <;> simp
        rw [hchf, if_pos (by simp)] at h
        cases h
        have hs1g := Store.get?_upd
          (renderDirtyStep rf id { r with parents := [] }
            (s.upd id (fun x => { x with parents := [] }))).2.2 id
          (fun x => { x with parents := r.parents }) id
        rw [if_pos rfl, renderDirtyStep_get?_self rf id _ _ hG1,
          Option.map_some'] at hs1g
        refine renderE_nochange rf g id _ _ hs1g ?_ rfl rfl
        rw [Store.renderstack_upd, renderDirtyStep_renderstack,
          Store.renderstack_upd]
        exact hstack

/-- A locked node for the C5 witness's guard conjunct. -/
def c5lockedS : Store := Store.mk [(0, { baseR with locked := 1 })] [] []

/-- The store after the witness's first render call on `c10s`. -/
def c5after : Store :=
  Store.mk
    [(0, { baseR with
           values := [("txt", "t")]
           parents := [1]
           cache := some "t" }),
     (1, { baseR with children := [0] })]
    [(7, "t")] []

/-- C5 witness: the guard on a concrete locked node, and idempotence after
a concrete successful render. -/
theorem c5_render_guard_idempotent_witness :
    renderE rfX 9 0 c5lockedS = .ok (false, c5lockedS) ∧
    ∃ s2, renderE rfX 2 0 c5after = .ok (false, s2) ∧ s2.doc = c5after.doc :=
  ⟨(c5_render_guard_idempotent rfX 9 2 0 c5lockedS { baseR with locked := 1 }
      rfl).1 (Or.inl (by simp)),
   (c5_render_guard_idempotent rfX 3 2 0 c10s c10r rfl).2 rfl rfl rfl rfl
     false c5after rfl⟩

/-- The live fragment for C2: `<ul><li>a</li><li>b</li></ul>`, with
explicit object identities on every node. -/
def c2live : DNode :=
  .elem 1 "ul" [] []
    [.elem 2 "li" [] [] [.text 3 "a"], .elem 4 "li" [] [] [.text 5 "b"]]

/-- The update fragment for C2: `<ul><li>a</li><li>c</li></ul>`. -/
def c2upd : DNode :=
  .elem 101 "ul" [] []
    [.elem 102 "li" [] [] [.text 103 "a"], .elem 104 "li" [] [] [.text 105 "c"]]

/-- C2 counterexample: the claim says a pair of matching text nodes has its
text value overwritten when it differs — which would leave the live text
node (identity 5) in place holding "c".  The code instead hits the
wholesale `replaceChild` branch (type-or-value mismatch), moving the
update's text node (identity 105) into the live tree: the result differs
from the claim's prediction. -/
theorem c2_counterexample :
    replaceFn c2upd c2live false 1000 =
      (.elem 1 "ul" [] []
        [.elem 2 "li" [] [] [.text 3 "a"],
         .elem 4 "li" [] [] [.text 105 "c"]], 1000) ∧
    (replaceFn c2upd c2live false 1000).1 ≠
      .elem 1 "ul" [] []
        [.elem 2 "li" [] [] [.text 3 "a"],
         .elem 4 "li" [] [] [.text 5 "c"]] := by
  have h1 : replaceFn c2upd c2live false 1000 =
      (.elem 1 "ul" [] []
        [.elem 2 "li" [] [] [.text 3 "a"],
         .elem 4 "li" [] [] [.text 105 "c"]], 1000) := rfl
  refine ⟨h1, fun h => ?_⟩
  rw [h1] at h
  simp at h

/-- C2 (amended): the walk reconciles the children pairwise from the
start.  A pair of text nodes with equal values is left untouched; a pair
with differing values has the live text node replaced wholesale by the
update's node (cloned to a fresh identity when the clone flag is set) —
the value is not overwritten in place.  After the walk, unmatched trailing
live children are removed and unmatched trailing update children are
appended (cloned under the same flag).  Patching the ul example therefore
leaves the first li (whole subtree) and the second li element
reference-equal, and replaces only the second li's text child with the
update's text node. -/
theorem c2_reconcile_amended :
    (∀ (iu ia : Nat) (v : String) (clone : Bool) (fresh : Nat),
      reconcilePair clone (.text iu v) (.text ia v) fresh =
        (.text ia v, fresh)) ∧
    (∀ (iu ia : Nat) (v w : String) (fresh : Nat), v ≠ w →
      reconcilePair false (.text iu w) (.text ia v) fresh =
          (.text iu w, fresh) ∧
        reconcilePair true (.text iu w) (.text ia v) fresh =
          (.text fresh w, fresh + 1)) ∧
    (∀ (clone : Bool) (cus : List DNode) (fresh : Nat),
      replaceChildren clone cus [] fresh = appendTrailing clone cus fresh) ∧
    (∀ (clone : Bool) (ca : DNode) (cas : List DNode) (fresh : Nat),
      replaceChildren clone [] (ca :: cas) fresh = ([], fresh)) ∧
    replaceFn c2upd c2live false 1000 =
      (.elem 1 "ul" [] []
        [.elem 2 "li" [] [] [.text 3 "a"],
         .elem 4 "li" [] [] [.text 105 "c"]], 1000) ∧
    c2live.childrenOf.head? = some (.elem 2 "li" [] [] [.text 3 "a"]) ∧
    c2upd.childrenOf.getLast? = some (.elem 104 "li" [] [] [.text 105 "c"]) := by
  refine ⟨?_, ?_, ?_, ?_, rfl, rfl, rfl⟩
  · intro iu ia v clone fresh
    simp [reconcilePair, DNode.nodeType, DNode.nodeValue]
  · intro iu ia v w fresh hvw
    constructor
    · simp [reconcilePair, DNode.nodeType, DNode.nodeValue, hvw, Ne.symm hvw]
    · simp [reconcilePair, DNode.nodeType, DNode.nodeValue, hvw, Ne.symm hvw,
        cloneNode]
  · intro clone cus fresh
    cases cus with
    | nil =>
      cases clone with
      | false => simp [replaceChildren, appendTrailing]
      | true => simp [replaceChildren, appendTrailing, cloneNode.cloneList]
    | cons cu cus => rfl
  · intro clone ca cas fresh
    rfl

/-- C2 witness: the differing-text conjunct at the example's own pair. -/
theorem c2_reconcile_amended_witness :
    "b" ≠ "c" ∧
    reconcilePair false (.text 105 "c") (.text 5 "b") 1000 =
      (.text 105 "c", 1000) ∧
    reconcilePair true (.text 105 "c") (.text 5 "b") 1000 =
      (.text 1000 "c", 1001) :=
  ⟨by decide,
   (c2_reconcile_amended.2.1 105 5 "b" "c" 1000 (by decide)).1,
   (c2_reconcile_amended.2.1 105 5 "b" "c" 1000 (by decide)).2⟩

end RJS
